import Mathlib

/-!
Verification of the batched translation pipeline of the subtitle-translator
repository, embedded shallowly from `src/lib/client/translator-client.ts`
(class `TranslatorClient`).  Strings are modelled as `List Char` at the core;
the JavaScript regular expressions used by the source are modelled by
explicit, executable matching functions with JavaScript semantics
(multiline `^`/`$`, the `\s` whitespace class, line terminators, and the
greedy-with-backtracking behaviour of `\s*(.+)$`).
-/

/-- The JavaScript `\s` character class (WhiteSpace ∪ LineTerminator),
also the set removed by `String.prototype.trim`. -/
def isJsWs (c : Char) : Bool :=
  c == ' ' || c.toNat == 0x09 || c.toNat == 0x0a || c.toNat == 0x0d ||
  c.toNat == 0x0b || c.toNat == 0x0c ||
  c.toNat == 0xa0 || c.toNat == 0x1680 ||
  (0x2000 ≤ c.toNat && c.toNat ≤ 0x200a) ||
  c.toNat == 0x2028 || c.toNat == 0x2029 || c.toNat == 0x202f ||
  c.toNat == 0x205f || c.toNat == 0x3000 || c.toNat == 0xfeff

/-- JavaScript line terminators: the characters that `.` does not match and
that multiline `^` / `$` anchor around. -/
def isLineTerm (c : Char) : Bool :=
  c.toNat == 0x0a || c.toNat == 0x0d || c.toNat == 0x2028 || c.toNat == 0x2029

/-- JavaScript `\d` is exactly the ASCII digits. -/
def isDigitChar (c : Char) : Bool :=
  '0' ≤ c && c ≤ '9'

/-- Model of `String.prototype.trim`: strip `\s` characters from both ends. -/
def trimChars (l : List Char) : List Char :=
  ((l.dropWhile isJsWs).reverse.dropWhile isJsWs).reverse

/-- Model of `String.prototype.split('\n')`: split on LF only, keeping empty
segments (`"".split('\n')` is `[""]`). -/
def splitLines : List Char → List (List Char)
  | [] => [[]]
  | c :: t =>
    if c = '\n' then [] :: splitLines t
    else
      match splitLines t with
      | l :: ls => (c :: l) :: ls
      | [] => [[c]]

/-- Model of `String.prototype.includes`. -/
def listIncludes (s sub : List Char) : Bool :=
  match s with
  | [] => sub.isEmpty
  | _ :: t => sub.isPrefixOf s || listIncludes t sub

/-- Backtracking step of `\s*(.+)$` when the whitespace run `ws` reaches the
end of the input: the quantifier `\s*` gives characters back until `.+` can
match, i.e. until the rightmost character of `ws` that is not a line
terminator.  Returns the consumed part (ending with that character) and the
rest (all line terminators), or `none` when `.+` cannot match at all. -/
def backtrackSplit (ws : List Char) : Option (List Char × List Char) :=
  let rev := ws.reverse
  let nls := rev.takeWhile isLineTerm
  let rem := rev.dropWhile isLineTerm
  match rem with
  | [] => none
  | _ :: _ => some (rem.reverse, nls.reverse)

/-- One attempt of the regex `^\d+\.\s*(.+)$` at the current position
(the caller guarantees the multiline `^` anchor).  On success returns the
full matched substring and the remainder of the input after the match,
following JavaScript semantics: `\d+` then `.` then greedy `\s*` (which may
cross line terminators) then `(.+)` (one or more non-line-terminator
characters) then multiline `$`. -/
def matchNumbered (l : List Char) : Option (List Char × List Char) :=
  let ds := l.takeWhile isDigitChar
  match ds, l.dropWhile isDigitChar with
  | _ :: _, '.' :: r2 =>
    let ws := r2.takeWhile isJsWs
    let r3 := r2.dropWhile isJsWs
    match r3 with
    | _ :: _ =>
      let content := r3.takeWhile (fun c => !isLineTerm c)
      let r4 := r3.dropWhile (fun c => !isLineTerm c)
      some (ds ++ '.' :: (ws ++ content), r4)
    | [] =>
      match backtrackSplit ws with
      | some (pre, rest) => some (ds ++ '.' :: pre, rest)
      | none => none
  | _, _ => none

/-- Fuelled scan of `response.match(/^\d+\.\s*(.+)$/gm)`: walk the input,
attempting a match at every position where the multiline `^` holds, and
continue after each (never empty) match.  `atStart` records whether the
current position is the start of the input or follows a line terminator. -/
def scanMatchesF : Nat → List Char → Bool → List (List Char)
  | 0, _, _ => []
  | _ + 1, [], _ => []
  | fuel + 1, c :: rest, atStart =>
    if atStart then
      match matchNumbered (c :: rest) with
      | some (m, r) => m :: scanMatchesF fuel r false
      | none => scanMatchesF fuel rest (isLineTerm c)
    else scanMatchesF fuel rest (isLineTerm c)

/-- All matches of `/^\d+\.\s*(.+)$/gm` in document order (the list is empty
exactly when JavaScript `match` returns `null`). -/
def scanMatches (l : List Char) : List (List Char) :=
  scanMatchesF l.length l true

/-- Model of `match.replace(/^\d+\.\s*/, '')`: remove a leading run of
digits, a period and the following whitespace; leave the string unchanged
when that pattern is not a prefix. -/
def stripNumbering (l : List Char) : List Char :=
  match l.takeWhile isDigitChar, l.dropWhile isDigitChar with
  | _ :: _, '.' :: r2 => r2.dropWhile isJsWs
  | _, _ => l

/-- Model of `line.match(/^\d+\.?\s*$/)` used as a Boolean: digits, an
optional period, then only whitespace to the end of the string. -/
def isBareNumeral (l : List Char) : Bool :=
  match l.takeWhile isDigitChar, l.dropWhile isDigitChar with
  | _ :: _, '.' :: r2 => r2.all isJsWs
  | _ :: _, r => r.all isJsWs
  | _, _ => false

/-- The error-marker string of parse fallback strategy 3. -/
def errorMarker : String := "[Translation error: Unable to parse response]"

/-- Fallback strategy 2's line list: split on line breaks, trim each line,
drop blank lines and bare-numeral lines
(`.filter((line) => line.length > 0 && !line.match(/^\d+\.?\s*$/))`). -/
def usableLines (response : List Char) : List (List Char) :=
  ((splitLines response).map trimChars).filter
    (fun t => decide (t ≠ []) && !isBareNumeral t)

/-- Core of `TranslatorClient.parseTranslationResponse`, on character
lists.  Strategy 1: if the numbered matches count equals `expectedCount`,
strip the numbering and trim.  Strategy 2: otherwise take the first
`expectedCount` usable lines if enough remain.  Strategy 3: otherwise pad
with the error marker (`lines[i] || marker`). -/
def parseChars (response : List Char) (expectedCount : Nat) : List (List Char) :=
  let ms := scanMatches response
  if ms ≠ [] ∧ ms.length = expectedCount then
    ms.map (fun m => trimChars (stripNumbering m))
  else
    let lines := usableLines response
    if expectedCount ≤ lines.length then lines.take expectedCount
    else
      (List.range expectedCount).map (fun i =>
        match lines.get? i with
        | some l => if l = [] then errorMarker.data else l
        | none => errorMarker.data)

/-- `TranslatorClient.parseTranslationResponse`, at `String` level. -/
def parseTranslationResponse (response : String) (expectedCount : Nat) : List String :=
  (parseChars response.data expectedCount).map List.asString

/-- Model of `String.prototype.trim` at `String` level. -/
def trimString (s : String) : String :=
  (trimChars s.data).asString

/-- `TranslationResult` from `src/types/translation.ts`. -/
structure TranslationResult where
  originalText : String
  translatedText : String
  sourceLanguage : String
  targetLanguage : String
deriving DecidableEq

/-- `AIProvider` from `src/types/translation.ts` (the fields `createModel`
reads; `baseURL` and `isCustom` are optional in the source, a missing
`isCustom` being falsy). -/
structure AIProvider where
  name : String
  apiKey : String
  baseURL : Option String
  models : List String
  isCustom : Bool
deriving DecidableEq

/-- A batch of `translateBatch`: `{ texts, startIndex }`. -/
structure Batch where
  texts : List String
  startIndex : Nat
deriving DecidableEq

/-- `provider.baseURL?.includes(sub)`: `undefined` is falsy. -/
def baseURLIncludes (provider : AIProvider) (sub : String) : Bool :=
  match provider.baseURL with
  | some u => listIncludes u.data sub.data
  | none => false

/-- Provider-family selection of `TranslatorClient.createModel`: the
`providerType` variable.  The source initializes it to `'openai'` and runs
an `if`/`else if` chain whose branches each OR an explicit provider id with
a baseURL substring test; the final `switch` maps the three possible values
to the three client constructors (its `default` arm is unreachable). -/
def createModelType (providerId : String) (provider : AIProvider) : String :=
  if providerId = "anthropic" || baseURLIncludes provider "anthropic.com" then
    "anthropic"
  else if providerId = "google" || baseURLIncludes provider "googleapis.com" then
    "google"
  else if providerId = "openai" || baseURLIncludes provider "openai.com" ||
      providerId = "siliconflow" || baseURLIncludes provider "siliconflow.cn" ||
      provider.isCustom then
    "openai"
  else
    "openai"

/-- Outcome of one `generateText` call, as observed by
`translateSubtitleBatch`'s `try`/`catch`: a successful response text, an
`AbortError` (cancellation), another `Error` with a message, or a thrown
non-`Error` value. -/
inductive GenOutcome where
  | ok (text : String)
  | abortError
  | errorWithMessage (message : String)
  | nonErrorThrow
deriving DecidableEq

/-- `TranslatorClient.translateSubtitleBatch`: looks the provider up in the
configuration (throwing `Provider <p> not found in configuration` when it is
absent), then calls the model and parses the trimmed response to exactly
`texts.length` strings; an `AbortError` is rethrown as
`Translation cancelled by user`, other failures as
`Translation failed: <message>`.  Errors are modelled as `Except.error` of
the thrown `Error`'s message. -/
def translateSubtitleBatch (providers : String → Option AIProvider)
    (providerName : String) (gen : GenOutcome) (texts : List String) :
    Except String (List String) :=
  match providers providerName with
  | none => Except.error ("Provider " ++ providerName ++ " not found in configuration")
  | some _ =>
    match gen with
    | GenOutcome.ok text =>
        Except.ok (parseTranslationResponse (trimString text) texts.length)
    | GenOutcome.abortError => Except.error "Translation cancelled by user"
    | GenOutcome.errorWithMessage m => Except.error ("Translation failed: " ++ m)
    | GenOutcome.nonErrorThrow => Except.error "Translation failed: Unknown error"

/-- The marker substituted by `processBatchWithRetry` when a parsed
translation is missing or empty:
`[Translation failed: No response for item ${i + 1}]`. -/
def noResponseMarker (i : Nat) : String :=
  "[Translation failed: No response for item " ++ Nat.repr (i + 1) ++ "]"

/-- The marker written for a batch that exhausted its retries:
`[Translation failed: ${error.message}]`. -/
def failedMarker (message : String) : String :=
  "[Translation failed: " ++ message ++ "]"

/-- The units written on the success path of `processBatchWithRetry`:
`translatedTexts[i] || marker` substitutes the marker for a missing or
empty (falsy) parsed translation. -/
def successUnits (b : Batch) (translatedTexts : List String)
    (src tgt : String) : List TranslationResult :=
  (List.range b.texts.length).map fun k =>
    { originalText := b.texts.getD k ""
      translatedText :=
        match translatedTexts.get? k with
        | some t => if t = "" then noResponseMarker k else t
        | none => noResponseMarker k
      sourceLanguage := src
      targetLanguage := tgt }

/-- The units written when a batch exhausts its retries. -/
def failureUnits (b : Batch) (message : String)
    (src tgt : String) : List TranslationResult :=
  (List.range b.texts.length).map fun k =>
    { originalText := b.texts.getD k ""
      translatedText := failedMarker message
      sourceLanguage := src
      targetLanguage := tgt }

/-- Observable outcome of running one batch to a terminal state: the units
written into the results array, the backoff delays waited (in milliseconds,
in order), the indices pushed onto `failed`, the amount added to
`processedSubtitles`, and the number of model calls made. -/
structure BatchRun where
  units : List TranslationResult
  delays : List Nat
  failedIndices : List Nat
  completedDelta : Nat
  attempts : Nat
deriving DecidableEq

/-- `processBatchWithRetry`, with the recursion restructured on
`remaining = maxRetries - retryCount` (so `retryCount < maxRetries` in the
source is `remaining > 0` here).  `attempt a` is the outcome of the model
call made with `retryCount = a`.  On any error: if retries remain, wait
`Math.pow(2, retryCount) * 1000` milliseconds and recurse; otherwise write
`[Translation failed: ${error.message}]` units for the batch's own
fragments, push their absolute indices onto `failed`, and add the batch
size to the completed count. -/
def processBatchGo (attempt : Nat → Except String (List String))
    (src tgt : String) (b : Batch) : Nat → Nat → BatchRun
  | remaining, retryCount =>
    match attempt retryCount with
    | Except.ok ts =>
      { units := successUnits b ts src tgt
        delays := []
        failedIndices := []
        completedDelta := b.texts.length
        attempts := 1 }
    | Except.error msg =>
      match remaining with
      | rem + 1 =>
        let r := processBatchGo attempt src tgt b rem (retryCount + 1)
        { units := r.units
          delays := 2 ^ retryCount * 1000 :: r.delays
          failedIndices := r.failedIndices
          completedDelta := r.completedDelta
          attempts := r.attempts + 1 }
      | 0 =>
        { units := failureUnits b msg src tgt
          delays := []
          failedIndices := (List.range b.texts.length).map (fun k => b.startIndex + k)
          completedDelta := b.texts.length
          attempts := 1 }

/-- `processBatchWithRetry(batch, retryCount = 0)` run to its terminal
state. -/
def processBatchWithRetry (attempt : Nat → Except String (List String))
    (maxRetries : Nat) (src tgt : String) (b : Batch) : BatchRun :=
  processBatchGo attempt src tgt b maxRetries 0

/-- The batch-partitioning loop of `translateBatch`
(`for (i = 0; i < texts.length; i += batchSize)`), fuelled by the input
length; `batchSize` is always positive because the source reads it as
`config.subtitleBatchSize || 5`. -/
def mkBatchesGo : Nat → List String → Nat → Nat → List Batch
  | 0, _, _, _ => []
  | _ + 1, [], _, _ => []
  | fuel + 1, t :: ts, bs, start =>
    { texts := (t :: ts).take bs, startIndex := start }
      :: mkBatchesGo fuel ((t :: ts).drop bs) bs (start + bs)

/-- The batches of `translateBatch` for a given input and batch size. -/
def mkBatches (texts : List String) (batchSize : Nat) : List Batch :=
  mkBatchesGo texts.length texts batchSize 0

/-- Writing a batch's units into the shared results array, one slot per
fragment, at absolute indices `startIndex + i`.  The array is modelled as a
function from index to optionally-written unit. -/
def writeUnits : (Nat → Option TranslationResult) → Nat → List TranslationResult →
    Nat → Option TranslationResult
  | st, _, [] => st
  | st, start, u :: us =>
    writeUnits (fun i => if i = start then some u else st i) (start + 1) us

/-- One worker step: claim batch `j` and run it to a terminal state,
writing its units into the results array.  `attempt j b a` is the outcome
of batch `j`'s model call number `a`. -/
def stepBatch (attempt : Nat → Batch → Nat → Except String (List String))
    (maxRetries : Nat) (src tgt : String) (batches : List Batch)
    (st : Nat → Option TranslationResult) (j : Nat) : Nat → Option TranslationResult :=
  match batches.get? j with
  | some b =>
    writeUnits st b.startIndex
      (processBatchWithRetry (attempt j b) maxRetries src tgt b).units
  | none => st

/-- The worker pool of `translateBatch`: batches are claimed one at a time
from a shared cursor and each is processed to a terminal state.  Since
every batch writes only its own disjoint slots, a run is determined by the
order in which batches were processed; `order` ranges over those orders,
covering every interleaving of the concurrent workers. -/
def runBatches (attempt : Nat → Batch → Nat → Except String (List String))
    (maxRetries : Nat) (src tgt : String) (batches : List Batch)
    (order : List Nat) : Nat → Option TranslationResult :=
  order.foldl (stepBatch attempt maxRetries src tgt batches) (fun _ => none)

/-- `TranslatorClient.translateBatch`: partition into batches and run the
worker pool, each model call going through `translateSubtitleBatch`.
`net j a` is the `generateText` outcome for batch `j`'s call number `a`. -/
def translateBatch (providers : String → Option AIProvider) (providerName : String)
    (net : Nat → Nat → GenOutcome) (texts : List String) (src tgt : String)
    (batchSize maxRetries : Nat) (order : List Nat) : Nat → Option TranslationResult :=
  runBatches
    (fun j b a => translateSubtitleBatch providers providerName (net j a) b.texts)
    maxRetries src tgt (mkBatches texts batchSize) order

/-- The returned results array, as the list of filled slots among the first
`n`. -/
def resultsList (st : Nat → Option TranslationResult) (n : Nat) : List TranslationResult :=
  (List.range n).filterMap st

/-- The unit that ends up in slot `i`, read off from the batch containing
`i`. -/
def unitAt (attempt : Nat → Batch → Nat → Except String (List String))
    (maxRetries : Nat) (src tgt : String) (texts : List String) (bs : Nat)
    (i : Nat) : Option TranslationResult :=
  match (mkBatches texts bs).get? (i / bs) with
  | some b =>
    (processBatchWithRetry (attempt (i / bs) b) maxRetries src tgt b).units.get?
      (i - b.startIndex)
  | none => none

/-- Batch `j` covers slot `i`. -/
abbrev coversIdx (texts : List String) (bs : Nat) (j i : Nat) : Prop :=
  i < texts.length ∧ j = i / bs

/-- The decimal digits of `k`, as characters. -/
def natChars (k : Nat) : List Char :=
  (Nat.repr k).data

/-- The numbered lines `"k. text"`, `"k+1. text"`, … for a list of texts
(the same shape `createSubtitlePrompt` asks the model to answer in). -/
def numberedLinesChars : Nat → List (List Char) → List (List Char)
  | _, [] => []
  | k, t :: ts => (natChars k ++ '.' :: ' ' :: t) :: numberedLinesChars (k + 1) ts

/-- Join all lines after the first, each preceded by a line feed. -/
def joinNLAux : List (List Char) → List Char
  | [] => []
  | l :: ls => '\n' :: (l ++ joinNLAux ls)

/-- Join lines with line feeds (no trailing line feed). -/
def joinNL : List (List Char) → List Char
  | [] => []
  | l :: ls => l ++ joinNLAux ls

/-- The first character exists and is not `\s`-whitespace. -/
def headNotWs : List Char → Bool
  | [] => false
  | c :: _ => !isJsWs c

/-- A text that makes an unambiguous `"k. text"` line: nonempty, does not
start or end with whitespace, and contains no line terminator. -/
def goodText (t : List Char) : Bool :=
  headNotWs t && headNotWs t.reverse && t.all (fun c => !isLineTerm c)

/-! ### List helpers -/

theorem takeWhile_append_stop {α : Type} (p : α → Bool) (xs : List α) (y : α)
    (rest : List α) (hxs : ∀ c ∈ xs, p c = true) (hy : p y = false) :
    (xs ++ y :: rest).takeWhile p = xs := by
  induction xs with
  | nil => simp [List.takeWhile_cons, hy]
  | cons a as ih =>
    have ha : p a = true := hxs a (by simp)
    have ih2 := ih (fun c hc => hxs c (by simp [hc]))
    simp [List.takeWhile_cons, ha, ih2]

theorem dropWhile_append_stop {α : Type} (p : α → Bool) (xs : List α) (y : α)
    (rest : List α) (hxs : ∀ c ∈ xs, p c = true) (hy : p y = false) :
    (xs ++ y :: rest).dropWhile p = y :: rest := by
  induction xs with
  | nil => simp [List.dropWhile_cons, hy]
  | cons a as ih =>
    have ha : p a = true := hxs a (by simp)
    have ih2 := ih (fun c hc => hxs c (by simp [hc]))
    simp [List.dropWhile_cons, ha, ih2]

theorem takeWhile_all {α : Type} (p : α → Bool) (xs : List α)
    (hxs : ∀ c ∈ xs, p c = true) : xs.takeWhile p = xs := by
  induction xs with
  | nil => rfl
  | cons a as ih =>
    have ha : p a = true := hxs a (by simp)
    have ih2 := ih (fun c hc => hxs c (by simp [hc]))
    simp [List.takeWhile_cons, ha, ih2]

theorem dropWhile_all {α : Type} (p : α → Bool) (xs : List α)
    (hxs : ∀ c ∈ xs, p c = true) : xs.dropWhile p = [] := by
  induction xs with
  | nil => rfl
  | cons a as ih =>
    have ha : p a = true := hxs a (by simp)
    have ih2 := ih (fun c hc => hxs c (by simp [hc]))
    simp [List.dropWhile_cons, ha, ih2]

theorem dropWhile_head_false {α : Type} (p : α → Bool) (a : α) (xs : List α)
    (ha : p a = false) : (a :: xs).dropWhile p = a :: xs := by
  simp [List.dropWhile_cons, ha]

theorem data_asString (l : List Char) : (List.asString l).data = l := rfl

theorem asString_data (s : String) : List.asString s.data = s := rfl

/-! ### Response-parser lemmas -/

theorem parseChars_length (r : List Char) (n : Nat) : (parseChars r n).length = n := by
  simp only [parseChars]
  split
  · next h => rw [List.length_map]; exact h.2
  · split
    · next h2 => rw [List.length_take]; omega
    · simp

theorem parseChars_strategy1 (r : List Char) (n : Nat)
    (h : scanMatches r ≠ [] ∧ (scanMatches r).length = n) :
    parseChars r n = (scanMatches r).map (fun m => trimChars (stripNumbering m)) := by
  simp only [parseChars]
  rw [if_pos h]

theorem parseChars_strategy2 (r : List Char) (n : Nat)
    (h1 : ¬(scanMatches r ≠ [] ∧ (scanMatches r).length = n))
    (h2 : n ≤ (usableLines r).length) :
    parseChars r n = (usableLines r).take n := by
  simp only [parseChars]
  rw [if_neg h1, if_pos h2]

theorem parseChars_strategy3 (r : List Char) (n : Nat)
    (h1 : ¬(scanMatches r ≠ [] ∧ (scanMatches r).length = n))
    (h2 : (usableLines r).length < n) :
    parseChars r n =
      (List.range n).map (fun i =>
        match (usableLines r).get? i with
        | some l => if l = [] then errorMarker.data else l
        | none => errorMarker.data) := by
  simp only [parseChars]
  rw [if_neg h1, if_neg (by omega)]

theorem usableLines_ne_nil (r : List Char) : ∀ l ∈ usableLines r, l ≠ [] := by
  intro l hl
  have := (List.mem_filter.mp hl).2
  have h1 : decide (l ≠ []) = true := by
    cases hd : decide (l ≠ []) <;> simp [hd] at this ⊢
  exact of_decide_eq_true h1

theorem usableLines_not_bare (r : List Char) :
    ∀ l ∈ usableLines r, isBareNumeral l = false := by
  intro l hl
  have := (List.mem_filter.mp hl).2
  cases hb : isBareNumeral l
  · rfl
  · rw [hb] at this; simp at this

theorem padMap_eq (L : List (List Char)) (n : Nat)
    (hL : ∀ l ∈ L, l ≠ []) (hlen : L.length ≤ n) :
    (List.range n).map (fun i =>
      match L.get? i with
      | some l => if l = [] then errorMarker.data else l
      | none => errorMarker.data) =
    L ++ List.replicate (n - L.length) errorMarker.data := by
  induction L generalizing n with
  | nil =>
    show (List.range n).map (fun _ => errorMarker.data) = _
    rw [List.map_const', List.length_range]
    simp
  | cons a as ih =>
    cases n with
    | zero => simp at hlen
    | succ m =>
      have ha : a ≠ [] := hL a (by simp)
      rw [List.range_succ_eq_map, List.map_cons, List.map_map]
      have htail :
          (List.range m).map
            ((fun i =>
              match (a :: as).get? i with
              | some l => if l = [] then errorMarker.data else l
              | none => errorMarker.data) ∘ Nat.succ) =
          as ++ List.replicate (m - as.length) errorMarker.data :=
        ih m (fun l hl => hL l (by simp [hl])) (by simpa using hlen)
      rw [htail]
      simp [ha]

theorem parseChars_pad (r : List Char) (n : Nat)
    (h1 : ¬(scanMatches r ≠ [] ∧ (scanMatches r).length = n))
    (h2 : (usableLines r).length < n) :
    parseChars r n =
      usableLines r ++ List.replicate (n - (usableLines r).length) errorMarker.data := by
  rw [parseChars_strategy3 r n h1 h2]
  exact padMap_eq _ _ (usableLines_ne_nil r) (by omega)

/-! ### Claims about the response parser and model resolver -/

/-- Claim C2 is false as stated: for the response `"1. "` with
`expectedCount = 1` the numbered-format strategy fires (the JavaScript
regex `^\d+\.\s*(.+)$` backtracks so that `(.+)` captures the trailing
space), strip-and-trim yields the empty string, and the parser returns
`[""]` — even though the response has fewer usable lines (none) than
`expectedCount`, the trailing element is not the error-marker string. -/
theorem claim_C2_counterexample :
    (usableLines ("1. ").data).length < 1 ∧
    parseTranslationResponse "1. " 1 = [""] ∧
    ("" : String) ≠ errorMarker := by
  decide

/-- Claim C2 (amended): for every raw response string and every
`expectedCount`, the parser never throws and returns a sequence of exactly
`expectedCount` strings; when additionally the numbered-format strategy
does not apply (its match count differs from `expectedCount`) and the
response has fewer usable lines than `expectedCount`, the returned
sequence is the usable lines followed by copies of the error-marker
string `"[Translation error: Unable to parse response]"`. -/
theorem claim_C2_amended (response : String) (n : Nat) :
    (parseTranslationResponse response n).length = n ∧
    (¬(scanMatches response.data ≠ [] ∧ (scanMatches response.data).length = n) →
      (usableLines response.data).length < n →
      parseTranslationResponse response n =
        (usableLines response.data).map List.asString ++
          List.replicate (n - (usableLines response.data).length) errorMarker) := by
  constructor
  · unfold parseTranslationResponse
    rw [List.length_map, parseChars_length]
  · intro h1 h2
    unfold parseTranslationResponse
    rw [parseChars_pad _ _ h1 h2, List.map_append, List.map_replicate]
    rfl

/-- Witness for the amended claim C2 at the concrete response `"Hi"` with
`expectedCount = 3`: one usable line, two error markers appended. -/
theorem claim_C2_witness :
    (parseTranslationResponse "Hi" 3).length = 3 ∧
    parseTranslationResponse "Hi" 3 = ["Hi", errorMarker, errorMarker] := by
  refine ⟨(claim_C2_amended "Hi" 3).1, ?_⟩
  have h := (claim_C2_amended "Hi" 3).2 (by decide) (by decide)
  rw [h]
  decide

/-- Claim C8: whenever the numbered-format strategy does not apply and at
least `expectedCount` lines survive fallback strategy 2's filter (trimmed,
nonblank, not a bare numeral with optional period), the parser returns
exactly the first `expectedCount` surviving lines; consequently no returned
line is blank or a bare numeral — a genuine numeric-only translation line is
silently dropped. -/
theorem claim_C8 (response : String) (n : Nat)
    (h1 : ¬(scanMatches response.data ≠ [] ∧ (scanMatches response.data).length = n))
    (h2 : n ≤ (usableLines response.data).length) :
    parseTranslationResponse response n =
      ((usableLines response.data).take n).map List.asString ∧
    ∀ s ∈ parseTranslationResponse response n,
      s.data ≠ [] ∧ isBareNumeral s.data = false := by
  have hp : parseChars response.data n = (usableLines response.data).take n :=
    parseChars_strategy2 _ _ h1 h2
  constructor
  · unfold parseTranslationResponse
    rw [hp]
  · intro s hs
    unfold parseTranslationResponse at hs
    rw [hp] at hs
    obtain ⟨t, ht, rfl⟩ := List.mem_map.mp hs
    have ht2 : t ∈ usableLines response.data := List.take_subset n _ ht
    rw [data_asString]
    exact ⟨usableLines_ne_nil _ t ht2, usableLines_not_bare _ t ht2⟩

/-- Witness for claim C8: in `"A\n42\nB\nC"` with `expectedCount = 2` the
numeric-only line `"42"` is dropped as noise and the first two remaining
lines are returned. -/
theorem claim_C8_witness :
    parseTranslationResponse "A\n42\nB\nC" 2 = ["A", "B"] ∧
    ∀ s ∈ parseTranslationResponse "A\n42\nB\nC" 2,
      s.data ≠ [] ∧ isBareNumeral s.data = false := by
  have h := claim_C8 "A\n42\nB\nC" 2 (by decide) (by decide)
  refine ⟨?_, h.2⟩
  rw [h.1]
  decide

/-- Claim C9: the response `"1. Hello\n2. World\n3. Extra"` has three
numbered matches (≠ expectedCount 2) yet three usable lines, and the parser
returns the first two lines still carrying their `"k. "` numbering prefix:
fallback strategy 2 does not strip numbering. -/
theorem claim_C9 :
    (scanMatches ("1. Hello\n2. World\n3. Extra").data).length ≠ 2 ∧
    2 ≤ (usableLines ("1. Hello\n2. World\n3. Extra").data).length ∧
    parseTranslationResponse "1. Hello\n2. World\n3. Extra" 2 =
      ["1. Hello", "2. World"] := by
  decide

/-- Claim C7 is false as stated: a provider whose id is `'openai'` but whose
baseURL contains `anthropic.com` resolves to the Anthropic family, because
`createModel`'s branches are ordered by family (anthropic, then google, then
openai), with the id test and the baseURL substring test OR-ed inside each
branch — the explicit id does not take precedence over the URL. -/
theorem claim_C7_counterexample :
    createModelType "openai"
      ⟨"OpenAI", "key", some "https://api.anthropic.com/v1", [], false⟩ =
      "anthropic" ∧
    ("anthropic" : String) ≠ "openai" := by
  decide

/-- Claim C7 (amended): `createModel` picks the provider family by the first
matching rule in the fixed order anthropic (id `'anthropic'` or baseURL
containing `anthropic.com`), google (id `'google'` or baseURL containing
`googleapis.com`), then OpenAI-compatible; so (a) a baseURL containing
`anthropic.com` always selects the Anthropic family, (b) id `'openai'`
selects the OpenAI family only when the baseURL matches neither earlier
family, and (c) an unrecognized id with an unrecognized baseURL defaults to
the OpenAI-compatible family. -/
theorem claim_C7_amended (providerId : String) (provider : AIProvider) :
    (baseURLIncludes provider "anthropic.com" = true →
      createModelType providerId provider = "anthropic") ∧
    (providerId = "openai" →
      baseURLIncludes provider "anthropic.com" = false →
      baseURLIncludes provider "googleapis.com" = false →
      createModelType providerId provider = "openai") ∧
    (providerId ≠ "anthropic" → providerId ≠ "google" →
      baseURLIncludes provider "anthropic.com" = false →
      baseURLIncludes provider "googleapis.com" = false →
      createModelType providerId provider = "openai") := by
  refine ⟨?_, ?_, ?_⟩
  · intro h
    simp [createModelType, h]
  · intro h1 h2 h3
    subst h1
    simp [createModelType, h2, h3]
  · intro h1 h2 h3 h4
    simp [createModelType, h1, h2, h3, h4]

/-- Witness for the amended claim C7: an unrecognized id with an
unrecognized baseURL resolves to the OpenAI-compatible family, and an
`anthropic.com` baseURL resolves to the Anthropic family. -/
theorem claim_C7_witness :
    createModelType "mistral" ⟨"Mistral", "k", some "https://api.mistral.ai", [], false⟩ =
      "openai" ∧
    createModelType "acme" ⟨"Acme", "k", some "https://api.anthropic.com", [], true⟩ =
      "anthropic" := by
  constructor
  · exact (claim_C7_amended "mistral"
      ⟨"Mistral", "k", some "https://api.mistral.ai", [], false⟩).2.2
      (by decide) (by decide) (by decide) (by decide)
  · exact (claim_C7_amended "acme"
      ⟨"Acme", "k", some "https://api.anthropic.com", [], true⟩).1 (by decide)

/-! ### Scheduler lemmas -/

theorem successUnits_length (b : Batch) (ts : List String) (src tgt : String) :
    (successUnits b ts src tgt).length = b.texts.length := by
  simp [successUnits]

theorem failureUnits_length (b : Batch) (msg : String) (src tgt : String) :
    (failureUnits b msg src tgt).length = b.texts.length := by
  simp [failureUnits]

theorem successUnits_get (b : Batch) (ts : List String) (src tgt : String)
    (k : Nat) (hk : k < b.texts.length) :
    (successUnits b ts src tgt).get? k = some
      { originalText := b.texts.getD k ""
        translatedText :=
          match ts.get? k with
          | some t => if t = "" then noResponseMarker k else t
          | none => noResponseMarker k
        sourceLanguage := src
        targetLanguage := tgt } := by
  unfold successUnits
  rw [List.get?_map, List.get?_range hk, Option.map_some']

theorem failureUnits_get (b : Batch) (msg : String) (src tgt : String)
    (k : Nat) (hk : k < b.texts.length) :
    (failureUnits b msg src tgt).get? k = some
      { originalText := b.texts.getD k ""
        translatedText := failedMarker msg
        sourceLanguage := src
        targetLanguage := tgt } := by
  unfold failureUnits
  rw [List.get?_map, List.get?_range hk, Option.map_some']

theorem processBatchGo_ok {attempt : Nat → Except String (List String)}
    {src tgt : String} {b : Batch} {rem rc : Nat} {ts : List String}
    (h : attempt rc = Except.ok ts) :
    processBatchGo attempt src tgt b rem rc =
      { units := successUnits b ts src tgt
        delays := []
        failedIndices := []
        completedDelta := b.texts.length
        attempts := 1 } := by
  unfold processBatchGo
  rw [h]

theorem processBatchGo_error_zero {attempt : Nat → Except String (List String)}
    {src tgt : String} {b : Batch} {rc : Nat} {msg : String}
    (h : attempt rc = Except.error msg) :
    processBatchGo attempt src tgt b 0 rc =
      { units := failureUnits b msg src tgt
        delays := []
        failedIndices := (List.range b.texts.length).map (fun k => b.startIndex + k)
        completedDelta := b.texts.length
        attempts := 1 } := by
  unfold processBatchGo
  rw [h]

theorem processBatchGo_error_succ {attempt : Nat → Except String (List String)}
    {src tgt : String} {b : Batch} {rem rc : Nat} {msg : String}
    (h : attempt rc = Except.error msg) :
    processBatchGo attempt src tgt b (rem + 1) rc =
      { units := (processBatchGo attempt src tgt b rem (rc + 1)).units
        delays := 2 ^ rc * 1000 :: (processBatchGo attempt src tgt b rem (rc + 1)).delays
        failedIndices := (processBatchGo attempt src tgt b rem (rc + 1)).failedIndices
        completedDelta := (processBatchGo attempt src tgt b rem (rc + 1)).completedDelta
        attempts := (processBatchGo attempt src tgt b rem (rc + 1)).attempts + 1 } := by
  conv_lhs => unfold processBatchGo
  rw [h]

theorem processBatchGo_units_shape (attempt : Nat → Except String (List String))
    (src tgt : String) (b : Batch) :
    ∀ rem rc,
      (∃ ts, (processBatchGo attempt src tgt b rem rc).units = successUnits b ts src tgt) ∨
      (∃ m, (processBatchGo attempt src tgt b rem rc).units = failureUnits b m src tgt) := by
  intro rem
  induction rem with
  | zero =>
    intro rc
    cases h : attempt rc with
    | ok ts => exact Or.inl ⟨ts, by rw [processBatchGo_ok h]⟩
    | error m => exact Or.inr ⟨m, by rw [processBatchGo_error_zero h]⟩
  | succ r ih =>
    intro rc
    cases h : attempt rc with
    | ok ts => exact Or.inl ⟨ts, by rw [processBatchGo_ok h]⟩
    | error m =>
      have hu : (processBatchGo attempt src tgt b (r + 1) rc).units =
          (processBatchGo attempt src tgt b r (rc + 1)).units := by
        rw [processBatchGo_error_succ h]
      rw [hu]
      exact ih (rc + 1)

theorem processBatchGo_units_length (attempt : Nat → Except String (List String))
    (src tgt : String) (b : Batch) (rem rc : Nat) :
    (processBatchGo attempt src tgt b rem rc).units.length = b.texts.length := by
  rcases processBatchGo_units_shape attempt src tgt b rem rc with ⟨ts, h⟩ | ⟨m, h⟩
  · rw [h, successUnits_length]
  · rw [h, failureUnits_length]

theorem processBatchGo_units_get (attempt : Nat → Except String (List String))
    (src tgt : String) (b : Batch) (rem rc k : Nat) (hk : k < b.texts.length) :
    ∃ u, (processBatchGo attempt src tgt b rem rc).units.get? k = some u ∧
      u.originalText = b.texts.getD k "" := by
  rcases processBatchGo_units_shape attempt src tgt b rem rc with ⟨ts, h⟩ | ⟨m, h⟩
  · rw [h, successUnits_get _ _ _ _ k hk]
    exact ⟨_, rfl, rfl⟩
  · rw [h, failureUnits_get _ _ _ _ k hk]
    exact ⟨_, rfl, rfl⟩

theorem processBatchGo_allFail (attempt : Nat → Except String (List String))
    (msgs : Nat → String) (src tgt : String) (b : Batch) :
    ∀ rem rc, (∀ a, rc ≤ a → a ≤ rc + rem → attempt a = Except.error (msgs a)) →
    processBatchGo attempt src tgt b rem rc =
      { units := failureUnits b (msgs (rc + rem)) src tgt
        delays := (List.range' rc rem).map (fun a => 2 ^ a * 1000)
        failedIndices := (List.range b.texts.length).map (fun k => b.startIndex + k)
        completedDelta := b.texts.length
        attempts := rem + 1 } := by
  intro rem
  induction rem with
  | zero =>
    intro rc h
    rw [processBatchGo_error_zero (h rc (Nat.le_refl rc) (by omega))]
    simp
  | succ r ih =>
    intro rc h
    rw [processBatchGo_error_succ (h rc (Nat.le_refl rc) (by omega))]
    rw [ih (rc + 1) (fun a ha1 ha2 => h a (by omega) (by omega))]
    have harith : rc + 1 + r = rc + (r + 1) := by omega
    rw [List.range'_succ, harith]
    simp

theorem writeUnits_get (us : List TranslationResult) :
    ∀ (st : Nat → Option TranslationResult) (start i : Nat),
    writeUnits st start us i =
      if start ≤ i ∧ i < start + us.length then us.get? (i - start) else st i := by
  induction us with
  | nil =>
    intro st start i
    have hno : ¬(start ≤ i ∧ i < start + ([] : List TranslationResult).length) := by
      simp
    rw [if_neg hno]
    rfl
  | cons u us ih =>
    intro st start i
    show writeUnits (fun j => if j = start then some u else st j) (start + 1) us i = _
    rw [ih]
    by_cases h1 : start + 1 ≤ i ∧ i < start + 1 + us.length
    · rw [if_pos h1, if_pos (by simp only [List.length_cons]; omega)]
      have h2 : i - start = (i - (start + 1)) + 1 := by omega
      rw [h2]
      rfl
    · rw [if_neg h1]
      by_cases h3 : i = start
      · subst h3
        rw [if_pos rfl, if_pos (by simp only [List.length_cons]; omega)]
        simp
      · rw [if_neg h3, if_neg (by simp only [List.length_cons]; omega)]

theorem mkBatchesGo_get (bs : Nat) (hbs : 0 < bs) :
    ∀ fuel (ts : List String) (start j : Nat), ts.length ≤ fuel →
    (mkBatchesGo fuel ts bs start).get? j =
      if j * bs < ts.length then
        some { texts := (ts.drop (j * bs)).take bs, startIndex := start + j * bs }
      else none := by
  intro fuel
  induction fuel with
  | zero =>
    intro ts start j hf
    have hts : ts = [] := List.eq_nil_of_length_eq_zero (by omega)
    subst hts
    simp [mkBatchesGo]
  | succ f ih =>
    intro ts start j hf
    cases ts with
    | nil => simp [mkBatchesGo]
    | cons t ts2 =>
      cases j with
      | zero =>
        have hc : 0 * bs < (t :: ts2).length := by simp
        rw [if_pos hc]
        simp [mkBatchesGo, Nat.zero_mul, List.drop_zero]
      | succ j2 =>
        show (mkBatchesGo f ((t :: ts2).drop bs) bs (start + bs)).get? j2 = _
        rw [ih ((t :: ts2).drop bs) (start + bs) j2 (by rw [List.length_drop]; omega)]
        rw [List.length_drop, List.drop_drop, Nat.succ_mul]
        by_cases hc : j2 * bs + bs < (t :: ts2).length
        · rw [if_pos (by omega), if_pos hc]
          have ha : start + bs + j2 * bs = start + (j2 * bs + bs) := by omega
          have hb : bs + j2 * bs = j2 * bs + bs := by omega
          rw [ha, hb]
        · rw [if_neg (by omega), if_neg hc]

theorem mkBatches_get (texts : List String) (bs : Nat) (hbs : 0 < bs) (j : Nat) :
    (mkBatches texts bs).get? j =
      if j * bs < texts.length then
        some { texts := (texts.drop (j * bs)).take bs, startIndex := j * bs }
      else none := by
  unfold mkBatches
  rw [mkBatchesGo_get bs hbs texts.length texts 0 j (Nat.le_refl _)]
  simp

theorem div_mul_facts (i bs : Nat) (hbs : 0 < bs) :
    i / bs * bs ≤ i ∧ i < i / bs * bs + bs := by
  have hdm : bs * (i / bs) + i % bs = i := Nat.div_add_mod i bs
  have hm : i % bs < bs := Nat.mod_lt i hbs
  constructor
  · calc i / bs * bs = bs * (i / bs) := Nat.mul_comm _ _
      _ ≤ i := by omega
  · have : i / bs * bs = bs * (i / bs) := Nat.mul_comm _ _
    omega

theorem div_eq_of_bounds (i j bs : Nat) (hbs : 0 < bs)
    (h1 : j * bs ≤ i) (h2 : i < j * bs + bs) : i / bs = j := by
  have h3 : i < (j + 1) * bs := by rw [Nat.succ_mul]; omega
  exact Nat.div_eq_of_lt_le h1 h3

/-- The batch containing slot `i` (when `i < texts.length`) is batch
`i / bs`, it exists, and its local index for `i` is in range. -/
theorem coveringBatch (texts : List String) (bs : Nat) (hbs : 0 < bs)
    (i : Nat) (hi : i < texts.length) :
    (mkBatches texts bs).get? (i / bs) =
      some { texts := (texts.drop (i / bs * bs)).take bs, startIndex := i / bs * bs } ∧
    i - i / bs * bs < ((texts.drop (i / bs * bs)).take bs).length := by
  obtain ⟨hle, hlt⟩ := div_mul_facts i bs hbs
  constructor
  · rw [mkBatches_get texts bs hbs, if_pos (by omega)]
  · rw [List.length_take, List.length_drop]
    omega

theorem stepBatch_char (attempt : Nat → Batch → Nat → Except String (List String))
    (maxRetries : Nat) (src tgt : String) (texts : List String) (bs : Nat)
    (hbs : 0 < bs) (st : Nat → Option TranslationResult) (j i : Nat) :
    stepBatch attempt maxRetries src tgt (mkBatches texts bs) st j i =
      if coversIdx texts bs j i then
        unitAt attempt maxRetries src tgt texts bs i
      else st i := by
  by_cases hc : coversIdx texts bs j i
  · obtain ⟨hi, hj⟩ := hc
    subst hj
    obtain ⟨hbatch, hk⟩ := coveringBatch texts bs hbs i hi
    rw [if_pos ⟨hi, rfl⟩]
    simp only [stepBatch, unitAt, hbatch]
    have hle := (div_mul_facts i bs hbs).1
    have hlen :
        (processBatchWithRetry
          (attempt (i / bs) ⟨(texts.drop (i / bs * bs)).take bs, i / bs * bs⟩)
          maxRetries src tgt
          ⟨(texts.drop (i / bs * bs)).take bs, i / bs * bs⟩).units.length =
        ((texts.drop (i / bs * bs)).take bs).length := by
      simp only [processBatchWithRetry]
      rw [processBatchGo_units_length]
    rw [writeUnits_get, if_pos ⟨hle, by rw [hlen]; omega⟩]
  · rw [if_neg hc]
    cases hbatch : (mkBatches texts bs).get? j with
    | none => simp only [stepBatch, hbatch]
    | some b =>
      simp only [stepBatch, hbatch]
      rw [writeUnits_get, if_neg]
      rintro ⟨hge, hlt⟩
      rw [mkBatches_get texts bs hbs] at hbatch
      by_cases hjb : j * bs < texts.length
      · rw [if_pos hjb] at hbatch
        injection hbatch with hb
        subst hb
        simp only [processBatchWithRetry] at hlt
        rw [processBatchGo_units_length] at hlt
        simp only [List.length_take, List.length_drop] at hlt
        dsimp only at hge hlt
        apply hc
        refine ⟨by omega, (div_eq_of_bounds i j bs hbs hge (by omega)).symm⟩
      · rw [if_neg hjb] at hbatch
        cases hbatch

theorem runBatchesAux_char (attempt : Nat → Batch → Nat → Except String (List String))
    (maxRetries : Nat) (src tgt : String) (texts : List String) (bs : Nat)
    (hbs : 0 < bs) :
    ∀ (order : List Nat) (st0 : Nat → Option TranslationResult) (i : Nat),
    List.foldl (stepBatch attempt maxRetries src tgt (mkBatches texts bs)) st0 order i =
      if ∃ j ∈ order, coversIdx texts bs j i then
        unitAt attempt maxRetries src tgt texts bs i
      else st0 i := by
  intro order
  induction order with
  | nil =>
    intro st0 i
    simp
  | cons j0 rest ih =>
    intro st0 i
    rw [List.foldl_cons, ih]
    by_cases hc : coversIdx texts bs j0 i
    · by_cases hr : ∃ j ∈ rest, coversIdx texts bs j i
      · rw [if_pos hr, if_pos ⟨j0, List.mem_cons_self j0 rest, hc⟩]
      · rw [if_neg hr, stepBatch_char attempt maxRetries src tgt texts bs hbs,
          if_pos hc, if_pos ⟨j0, List.mem_cons_self j0 rest, hc⟩]
    · by_cases hr : ∃ j ∈ rest, coversIdx texts bs j i
      · obtain ⟨j, hjmem, hjcov⟩ := hr
        rw [if_pos ⟨j, hjmem, hjcov⟩, if_pos ⟨j, List.mem_cons_of_mem j0 hjmem, hjcov⟩]
      · rw [if_neg hr, stepBatch_char attempt maxRetries src tgt texts bs hbs, if_neg hc,
          if_neg]
        rintro ⟨j, hjmem, hjcov⟩
        rcases List.mem_cons.mp hjmem with rfl | hj2
        · exact hc hjcov
        · exact hr ⟨j, hj2, hjcov⟩

theorem runBatches_char (attempt : Nat → Batch → Nat → Except String (List String))
    (maxRetries : Nat) (src tgt : String) (texts : List String) (bs : Nat)
    (hbs : 0 < bs) (order : List Nat) (i : Nat) :
    runBatches attempt maxRetries src tgt (mkBatches texts bs) order i =
      if ∃ j ∈ order, coversIdx texts bs j i then
        unitAt attempt maxRetries src tgt texts bs i
      else none := by
  unfold runBatches
  exact runBatchesAux_char attempt maxRetries src tgt texts bs hbs order _ i

theorem unitAt_origText (attempt : Nat → Batch → Nat → Except String (List String))
    (maxRetries : Nat) (src tgt : String) (texts : List String) (bs : Nat)
    (hbs : 0 < bs) (i : Nat) (hi : i < texts.length) :
    ∃ u, unitAt attempt maxRetries src tgt texts bs i = some u ∧
      u.originalText = texts.getD i "" := by
  obtain ⟨hbatch, hk⟩ := coveringBatch texts bs hbs i hi
  unfold unitAt
  rw [hbatch]
  unfold processBatchWithRetry
  obtain ⟨u, hu, horig⟩ := processBatchGo_units_get
    (attempt (i / bs) { texts := (texts.drop (i / bs * bs)).take bs, startIndex := i / bs * bs })
    src tgt { texts := (texts.drop (i / bs * bs)).take bs, startIndex := i / bs * bs }
    maxRetries 0 (i - i / bs * bs) hk
  refine ⟨u, hu, ?_⟩
  rw [horig]
  obtain ⟨hle, hlt⟩ := div_mul_facts i bs hbs
  simp only [List.getD_eq_getElem?_getD, List.getElem?_take, List.getElem?_drop]
  rw [if_pos (by omega)]
  have : i / bs * bs + (i - i / bs * bs) = i := by omega
  rw [this]

theorem batch_getD (texts : List String) (bs : Nat) (hbs : 0 < bs)
    (i : Nat) (hi : i < texts.length) :
    ((texts.drop (i / bs * bs)).take bs).getD (i - i / bs * bs) "" = texts.getD i "" := by
  obtain ⟨hle, hlt⟩ := div_mul_facts i bs hbs
  simp only [List.getD_eq_getElem?_getD, List.getElem?_take, List.getElem?_drop]
  rw [if_pos (by omega)]
  have hadd : i / bs * bs + (i - i / bs * bs) = i := by omega
  rw [hadd]

theorem batchIndex_lt (texts : List String) (bs : Nat) (hbs : 0 < bs) (i : Nat)
    (hi : i < texts.length) : i / bs < (mkBatches texts bs).length := by
  by_contra h
  have hnone : (mkBatches texts bs).get? (i / bs) = none :=
    List.get?_eq_none.mpr (by omega)
  rw [(coveringBatch texts bs hbs i hi).1] at hnone
  cases hnone

theorem resultsList_length (st : Nat → Option TranslationResult) (n : Nat)
    (h : ∀ i, i < n → (st i).isSome) : (resultsList st n).length = n := by
  unfold resultsList
  induction n with
  | zero => rfl
  | succ m ih =>
    rw [List.range_succ, List.filterMap_append, List.length_append,
      ih (fun i hi => h i (by omega))]
    obtain ⟨u, hu⟩ := Option.isSome_iff_exists.mp (h m (by omega))
    simp [List.filterMap_cons, hu]

theorem noResponseMarker_ne_empty (k : Nat) : noResponseMarker k ≠ "" := by
  unfold noResponseMarker
  intro h
  have h2 := congrArg String.data h
  rw [String.data_append, String.data_append] at h2
  rcases List.append_eq_nil.mp h2 with ⟨h3, -⟩
  rcases List.append_eq_nil.mp h3 with ⟨h4, -⟩
  exact absurd h4 (by decide)

/-! ### Claims about the batch scheduler -/

/-- Claim C1: for every input list, batch size, retry limit, network
behaviour, and processing order covering every batch (i.e. every completed
run, whatever the concurrency interleaving and whichever batches succeed or
fail), `translateBatch` fills every slot: the results array has the same
length as the input and slot `i` holds a unit whose `originalText` is the
`i`-th input text. -/
theorem claim_C1 (providers : String → Option AIProvider) (providerName : String)
    (net : Nat → Nat → GenOutcome) (texts : List String) (src tgt : String)
    (bs maxRetries : Nat) (order : List Nat) (hbs : 0 < bs)
    (horder : ∀ j, j < (mkBatches texts bs).length → j ∈ order) :
    (resultsList (translateBatch providers providerName net texts src tgt bs maxRetries order)
      texts.length).length = texts.length ∧
    ∀ i (hi : i < texts.length),
      (translateBatch providers providerName net texts src tgt bs maxRetries order i).map
        TranslationResult.originalText = some (texts.get ⟨i, hi⟩) := by
  have key : ∀ i, i < texts.length →
      ∃ u, translateBatch providers providerName net texts src tgt bs maxRetries order i =
        some u ∧ u.originalText = texts.getD i "" := by
    intro i hi
    unfold translateBatch
    rw [runBatches_char _ _ _ _ _ _ hbs,
      if_pos ⟨i / bs, horder (i / bs) (batchIndex_lt texts bs hbs i hi), hi, rfl⟩]
    exact unitAt_origText _ _ _ _ _ _ hbs i hi
  constructor
  · apply resultsList_length
    intro i hi
    obtain ⟨u, hu, -⟩ := key i hi
    rw [hu]
    rfl
  · intro i hi
    obtain ⟨u, hu, horig⟩ := key i hi
    rw [hu, Option.map_some', horig, List.getD_eq_get? , List.get?_eq_get hi]
    rfl

/-- Witness for claim C1: three fragments, batch size 2, batches processed
in reverse order, model answering a fixed two-line response. -/
theorem claim_C1_witness :
    (resultsList (translateBatch (fun _ => some ⟨"P", "k", none, [], false⟩) "openai"
      (fun _ _ => GenOutcome.ok "1. HOLA\n2. MUNDO") ["Hello", "World", "Foo"]
      "en" "es" 2 0 [1, 0]) 3).length = 3 ∧
    (translateBatch (fun _ => some ⟨"P", "k", none, [], false⟩) "openai"
      (fun _ _ => GenOutcome.ok "1. HOLA\n2. MUNDO") ["Hello", "World", "Foo"]
      "en" "es" 2 0 [1, 0] 2).map TranslationResult.originalText = some "Foo" := by
  have h := claim_C1 (fun _ => some ⟨"P", "k", none, [], false⟩) "openai"
    (fun _ _ => GenOutcome.ok "1. HOLA\n2. MUNDO") ["Hello", "World", "Foo"]
    "en" "es" 2 0 [1, 0] (by decide)
    (by
      intro j hj
      have h2 : (mkBatches ["Hello", "World", "Foo"] 2).length = 2 := by decide
      rw [h2] at hj
      interval_cases j <;> decide)
  exact ⟨h.1, h.2 2 (by decide)⟩

/-- Claim C3: a batch whose model call fails on every attempt `0..maxRetries`
(`maxRetries + 1` consecutive failures) makes exactly `maxRetries + 1`
attempts with backoff waits of `2^0, …, 2^(maxRetries-1)` seconds (here in
milliseconds, as passed to `setTimeout`), then terminally writes one
error-marker unit per own fragment, pushes exactly its own absolute indices
onto the failed set, and adds the batch size to the completed count; and the
slots outside any batch `j` are unaffected by batch `j`'s model-call
outcomes. -/
theorem claim_C3 (attempt : Nat → Except String (List String)) (msgs : Nat → String)
    (maxRetries : Nat) (src tgt : String) (b : Batch)
    (hfail : ∀ a, a ≤ maxRetries → attempt a = Except.error (msgs a)) :
    (processBatchWithRetry attempt maxRetries src tgt b).attempts = maxRetries + 1 ∧
    (processBatchWithRetry attempt maxRetries src tgt b).delays =
      (List.range maxRetries).map (fun a => 2 ^ a * 1000) ∧
    (processBatchWithRetry attempt maxRetries src tgt b).units =
      failureUnits b (msgs maxRetries) src tgt ∧
    (processBatchWithRetry attempt maxRetries src tgt b).units.length = b.texts.length ∧
    (∀ k, k < b.texts.length →
      (processBatchWithRetry attempt maxRetries src tgt b).units.get? k = some
        { originalText := b.texts.getD k ""
          translatedText := failedMarker (msgs maxRetries)
          sourceLanguage := src
          targetLanguage := tgt }) ∧
    (processBatchWithRetry attempt maxRetries src tgt b).failedIndices =
      (List.range b.texts.length).map (fun k => b.startIndex + k) ∧
    (processBatchWithRetry attempt maxRetries src tgt b).completedDelta = b.texts.length ∧
    (∀ (attempt2 attempt3 : Nat → Batch → Nat → Except String (List String))
      (texts : List String) (bs : Nat) (order : List Nat) (j i : Nat),
      0 < bs → ¬coversIdx texts bs j i →
      (∀ j2, j2 ≠ j → attempt2 j2 = attempt3 j2) →
      runBatches attempt2 maxRetries src tgt (mkBatches texts bs) order i =
        runBatches attempt3 maxRetries src tgt (mkBatches texts bs) order i) := by
  have h := processBatchGo_allFail attempt msgs src tgt b maxRetries 0
    (fun a ha1 ha2 => hfail a (by omega))
  have hA : processBatchWithRetry attempt maxRetries src tgt b =
      { units := failureUnits b (msgs maxRetries) src tgt
        delays := (List.range' 0 maxRetries).map (fun a => 2 ^ a * 1000)
        failedIndices := (List.range b.texts.length).map (fun k => b.startIndex + k)
        completedDelta := b.texts.length
        attempts := maxRetries + 1 } := by
    simp only [processBatchWithRetry]
    rw [h]
    simp only [Nat.zero_add]
  rw [hA]
  refine ⟨rfl, by conv_rhs => rw [List.range_eq_range'], rfl, failureUnits_length b _ src tgt, ?_,
    rfl, rfl, ?_⟩
  · intro k hk
    exact failureUnits_get b _ src tgt k hk
  · intro attempt2 attempt3 texts bs order j i hbs hcov heq
    rw [runBatches_char _ _ _ _ _ _ hbs, runBatches_char _ _ _ _ _ _ hbs]
    by_cases hex : ∃ j2 ∈ order, coversIdx texts bs j2 i
    · rw [if_pos hex, if_pos hex]
      obtain ⟨j2, hmem, hilen, hj2⟩ := hex
      have hne : i / bs ≠ j := by
        intro hEq
        exact hcov ⟨hilen, hEq.symm⟩
      unfold unitAt
      rw [heq (i / bs) hne]
    · rw [if_neg hex, if_neg hex]

/-- Witness for claim C3: a two-fragment batch starting at index 3 with
`maxRetries = 1` and an always-failing call: two attempts, one backoff wait
of one second, failed indices 3 and 4, completed raised by 2. -/
theorem claim_C3_witness :
    (processBatchWithRetry (fun _ => Except.error "boom") 1 "en" "fr" ⟨["a", "b"], 3⟩).attempts = 2 ∧
    (processBatchWithRetry (fun _ => Except.error "boom") 1 "en" "fr" ⟨["a", "b"], 3⟩).delays = [1000] ∧
    (processBatchWithRetry (fun _ => Except.error "boom") 1 "en" "fr" ⟨["a", "b"], 3⟩).failedIndices = [3, 4] ∧
    (processBatchWithRetry (fun _ => Except.error "boom") 1 "en" "fr" ⟨["a", "b"], 3⟩).completedDelta = 2 := by
  have h := claim_C3 (fun _ => Except.error "boom") (fun _ => "boom") 1 "en" "fr"
    ⟨["a", "b"], 3⟩ (fun a ha => rfl)
  refine ⟨h.1, ?_, ?_, h.2.2.2.2.2.2.1⟩
  · rw [h.2.1]
    decide
  · rw [h.2.2.2.2.2.1]
    decide

/-- Claim C4 is false as stated: a model call that fails with the
user-cancelled error (`AbortError`, surfaced as
`'Translation cancelled by user'`) is NOT terminal for the batch —
`processBatchWithRetry`'s catch block retries on every error without
inspecting it, so with `maxRetries = 2` a batch whose calls always fail
with the cancellation error is attempted 3 times (not 1) with backoff
waits of 1 and 2 seconds. -/
theorem claim_C4_counterexample :
    (processBatchWithRetry (fun _ => Except.error "Translation cancelled by user") 2
      "en" "es" ⟨["Hola"], 0⟩).attempts = 3 ∧
    (processBatchWithRetry (fun _ => Except.error "Translation cancelled by user") 2
      "en" "es" ⟨["Hola"], 0⟩).attempts ≠ 1 ∧
    (processBatchWithRetry (fun _ => Except.error "Translation cancelled by user") 2
      "en" "es" ⟨["Hola"], 0⟩).delays = [1000, 2000] := by
  decide

/-- Claim C4 (amended): an `AbortError` from the model call is surfaced by
`translateSubtitleBatch` as the error `'Translation cancelled by user'`,
but the scheduler treats it exactly like a provider/transport error: it is
retried with exponential backoff while `retryCount < maxRetries`, making
`maxRetries + 1` attempts in all, and then writes the cancellation message
into the batch's error-marker units. -/
theorem claim_C4_amended (maxRetries : Nat) (src tgt : String) (b : Batch) :
    (processBatchWithRetry (fun _ => Except.error "Translation cancelled by user")
      maxRetries src tgt b).attempts = maxRetries + 1 ∧
    (processBatchWithRetry (fun _ => Except.error "Translation cancelled by user")
      maxRetries src tgt b).delays =
      (List.range maxRetries).map (fun a => 2 ^ a * 1000) ∧
    (processBatchWithRetry (fun _ => Except.error "Translation cancelled by user")
      maxRetries src tgt b).units =
      failureUnits b "Translation cancelled by user" src tgt ∧
    (∀ (providers : String → Option AIProvider) (p : String) (cfg : AIProvider)
      (texts : List String), providers p = some cfg →
      translateSubtitleBatch providers p GenOutcome.abortError texts =
        Except.error "Translation cancelled by user") := by
  have h := processBatchGo_allFail (fun _ => Except.error "Translation cancelled by user")
    (fun _ => "Translation cancelled by user") src tgt b maxRetries 0 (fun a ha1 ha2 => rfl)
  have hA : processBatchWithRetry (fun _ => Except.error "Translation cancelled by user")
      maxRetries src tgt b =
      { units := failureUnits b "Translation cancelled by user" src tgt
        delays := (List.range' 0 maxRetries).map (fun a => 2 ^ a * 1000)
        failedIndices := (List.range b.texts.length).map (fun k => b.startIndex + k)
        completedDelta := b.texts.length
        attempts := maxRetries + 1 } := by
    simp only [processBatchWithRetry]
    rw [h]
  rw [hA]
  refine ⟨rfl, by conv_rhs => rw [List.range_eq_range'], rfl, ?_⟩
  intro providers p cfg texts hp
  unfold translateSubtitleBatch
  rw [hp]

/-- Witness for the amended claim C4: with `maxRetries = 1` the cancelled
batch is attempted twice, and the abort outcome maps to the cancellation
error message. -/
theorem claim_C4_witness :
    (processBatchWithRetry (fun _ => Except.error "Translation cancelled by user") 1
      "en" "fr" ⟨["Hi"], 5⟩).attempts = 2 ∧
    translateSubtitleBatch (fun _ => some ⟨"P", "k", none, [], false⟩) "openai"
      GenOutcome.abortError ["Hi"] = Except.error "Translation cancelled by user" := by
  have h := claim_C4_amended 1 "en" "fr" ⟨["Hi"], 5⟩
  exact ⟨h.1, h.2.2.2 (fun _ => some ⟨"P", "k", none, [], false⟩) "openai"
    ⟨"P", "k", none, [], false⟩ ["Hi"] rfl⟩

/-- Claim C5 is false as stated: with the provider absent from the
configuration, `translateBatch` does not fail fast and does not surface the
error synchronously — the `Provider x not found in configuration` error is
thrown inside each batch's worker, caught by the retry logic and retried
(here one backoff wait of one second with `maxRetries = 1`), and the run
completes normally, returning a full-length array of error-marker units. -/
theorem claim_C5_counterexample :
    (resultsList (translateBatch (fun _ => none) "x" (fun _ _ => GenOutcome.nonErrorThrow)
      ["a", "b", "c"] "en" "fr" 2 1 [0, 1]) 3).length = 3 ∧
    translateBatch (fun _ => none) "x" (fun _ _ => GenOutcome.nonErrorThrow)
      ["a", "b", "c"] "en" "fr" 2 1 [0, 1] 0 =
      some ⟨"a", "[Translation failed: Provider x not found in configuration]", "en", "fr"⟩ ∧
    (processBatchWithRetry
      (fun _ => translateSubtitleBatch (fun _ => none) "x" GenOutcome.nonErrorThrow ["a", "b"])
      1 "en" "fr" ⟨["a", "b"], 0⟩).delays = [1000] ∧
    ([1000] : List Nat) ≠ [] := by
  decide

/-- Claim C5 (amended): when the named provider is absent from the
configuration, every model call of every batch throws
`Provider <p> not found in configuration`; each batch's worker catches it,
retries `maxRetries` times with exponential backoff, and then writes
error-marker units, so a completed run returns a unit
`[Translation failed: Provider <p> not found in configuration]` for every
fragment instead of failing fast before scheduling. -/
theorem claim_C5_amended (providers : String → Option AIProvider) (p : String)
    (net : Nat → Nat → GenOutcome) (texts : List String) (src tgt : String)
    (bs maxRetries : Nat) (order : List Nat)
    (hp : providers p = none) (hbs : 0 < bs)
    (horder : ∀ j, j < (mkBatches texts bs).length → j ∈ order) :
    (∀ i, i < texts.length →
      translateBatch providers p net texts src tgt bs maxRetries order i =
        some { originalText := texts.getD i ""
               translatedText :=
                 failedMarker ("Provider " ++ p ++ " not found in configuration")
               sourceLanguage := src
               targetLanguage := tgt }) ∧
    (∀ j b, (mkBatches texts bs).get? j = some b →
      (processBatchWithRetry (fun a => translateSubtitleBatch providers p (net j a) b.texts)
        maxRetries src tgt b).delays =
        (List.range maxRetries).map (fun a => 2 ^ a * 1000)) := by
  have hatt : ∀ (g : GenOutcome) (ts : List String),
      translateSubtitleBatch providers p g ts =
        Except.error ("Provider " ++ p ++ " not found in configuration") := by
    intro g ts
    unfold translateSubtitleBatch
    rw [hp]
  have hrun : ∀ (j : Nat) (b : Batch),
      processBatchWithRetry (fun a => translateSubtitleBatch providers p (net j a) b.texts)
        maxRetries src tgt b =
      { units := failureUnits b ("Provider " ++ p ++ " not found in configuration") src tgt
        delays := (List.range' 0 maxRetries).map (fun a => 2 ^ a * 1000)
        failedIndices := (List.range b.texts.length).map (fun k => b.startIndex + k)
        completedDelta := b.texts.length
        attempts := maxRetries + 1 } := by
    intro j b
    simp only [processBatchWithRetry]
    rw [processBatchGo_allFail _ (fun _ => "Provider " ++ p ++ " not found in configuration")
      src tgt b maxRetries 0 (fun a ha1 ha2 => hatt (net j a) b.texts)]
  constructor
  · intro i hi
    unfold translateBatch
    rw [runBatches_char _ _ _ _ _ _ hbs,
      if_pos ⟨i / bs, horder (i / bs) (batchIndex_lt texts bs hbs i hi), hi, rfl⟩]
    obtain ⟨hbatch, hk⟩ := coveringBatch texts bs hbs i hi
    unfold unitAt
    rw [hbatch]
    dsimp only
    have hr := hrun (i / bs) ⟨(texts.drop (i / bs * bs)).take bs, i / bs * bs⟩
    dsimp only at hr
    rw [hr]
    dsimp only
    rw [failureUnits_get _ _ _ _ _ hk, batch_getD texts bs hbs i hi]
  · intro j b hbatch
    rw [hrun j b]
    conv_rhs => rw [List.range_eq_range']

/-- Witness for the amended claim C5: three fragments, batch size 2,
`maxRetries = 1`, missing provider `x`: slot 2 holds the marker unit and
the second batch waited one second before its retry. -/
theorem claim_C5_witness :
    translateBatch (fun _ => none) "x" (fun _ _ => GenOutcome.nonErrorThrow)
      ["a", "b", "c"] "en" "fr" 2 1 [0, 1] 2 =
      some ⟨"c", "[Translation failed: Provider x not found in configuration]", "en", "fr"⟩ ∧
    (processBatchWithRetry
      (fun a => translateSubtitleBatch (fun _ => none) "x" GenOutcome.nonErrorThrow ["c"])
      1 "en" "fr" ⟨["c"], 2⟩).delays = [1000] := by
  have h := claim_C5_amended (fun _ => none) "x" (fun _ _ => GenOutcome.nonErrorThrow)
    ["a", "b", "c"] "en" "fr" 2 1 [0, 1] rfl (by decide)
    (by
      intro j hj
      have h2 : (mkBatches ["a", "b", "c"] 2).length = 2 := by decide
      rw [h2] at hj
      interval_cases j <;> decide)
  constructor
  · have h1 := h.1 2 (by decide)
    rw [h1]
    decide
  · have h2 := h.2 1 ⟨["c"], 2⟩ (by decide)
    rw [h2]
    decide

/-- Claim C10: the parser's numbered-line strategy can produce an empty
string (`parse "1. " 1 = [""]`, from a line of digits and a period followed
only by whitespace), and on the success path the scheduler substitutes the
marker `[Translation failed: No response for item i+1]` for a missing or
empty parsed translation, so every unit written for a successfully
translated batch has a non-empty `translatedText`. -/
theorem claim_C10 (attempt : Nat → Except String (List String)) (maxRetries : Nat)
    (src tgt : String) (b : Batch) (ts : List String) (k : Nat)
    (h0 : attempt 0 = Except.ok ts) (hk : k < b.texts.length) :
    parseTranslationResponse "1. " 1 = [""] ∧
    (processBatchWithRetry attempt maxRetries src tgt b).units = successUnits b ts src tgt ∧
    ∃ u, (successUnits b ts src tgt).get? k = some u ∧
      u.translatedText ≠ "" ∧
      (ts.get? k = some "" → u.translatedText = noResponseMarker k) := by
  refine ⟨by decide, ?_, ?_⟩
  · unfold processBatchWithRetry
    rw [processBatchGo_ok h0]
  · rw [successUnits_get b ts src tgt k hk]
    refine ⟨_, rfl, ?_, ?_⟩
    · cases hts : ts.get? k with
      | none => exact noResponseMarker_ne_empty k
      | some t =>
        show (if t = "" then noResponseMarker k else t) ≠ ""
        by_cases ht : t = ""
        · rw [if_pos ht]
          exact noResponseMarker_ne_empty k
        · rw [if_neg ht]
          exact ht
    · intro hts
      rw [hts]
      show (if ("" : String) = "" then noResponseMarker k else "") = noResponseMarker k
      rw [if_pos rfl]

/-- Witness for claim C10: a one-fragment batch whose parsed translation is
the empty string gets the item-1 marker instead. -/
theorem claim_C10_witness :
    (processBatchWithRetry (fun _ => Except.ok [""]) 2 "en" "de" ⟨["Hola"], 0⟩).units =
      successUnits ⟨["Hola"], 0⟩ [""] "en" "de" ∧
    (successUnits ⟨["Hola"], 0⟩ [""] "en" "de").get? 0 =
      some ⟨"Hola", "[Translation failed: No response for item 1]", "en", "de"⟩ := by
  have h := claim_C10 (fun _ => Except.ok [""]) 2 "en" "de" ⟨["Hola"], 0⟩ [""] 0 rfl
    (by decide)
  exact ⟨h.2.1, by decide⟩

/-! ### Numbered-response lemmas for the verbatim round-trip claim -/

theorem matchNumbered_append {l m r : List Char}
    (h : matchNumbered l = some (m, r)) : l = m ++ r ∧ m ≠ [] := by
  simp only [matchNumbered] at h
  split at h
  · next d ds2 r2 hds hr2 =>
    split at h
    · next c r3tail hr3 =>
      injection h with hpair
      injection hpair with hm hr
      constructor
      · rw [← hm, ← hr]
        calc l = l.takeWhile isDigitChar ++ l.dropWhile isDigitChar :=
              (List.takeWhile_append_dropWhile isDigitChar l).symm
          _ = l.takeWhile isDigitChar ++ '.' :: r2 := by rw [hr2]
          _ = l.takeWhile isDigitChar ++
              '.' :: (r2.takeWhile isJsWs ++ r2.dropWhile isJsWs) := by
              rw [List.takeWhile_append_dropWhile isJsWs r2]
          _ = l.takeWhile isDigitChar ++
              '.' :: (r2.takeWhile isJsWs ++
                ((r2.dropWhile isJsWs).takeWhile (fun c => !isLineTerm c) ++
                 (r2.dropWhile isJsWs).dropWhile (fun c => !isLineTerm c))) := by
              rw [List.takeWhile_append_dropWhile (fun c => !isLineTerm c)
                (r2.dropWhile isJsWs)]
          _ = (l.takeWhile isDigitChar ++
                '.' :: (r2.takeWhile isJsWs ++
                  (r2.dropWhile isJsWs).takeWhile (fun c => !isLineTerm c))) ++
              (r2.dropWhile isJsWs).dropWhile (fun c => !isLineTerm c) := by
              simp [List.append_assoc]
      · rw [← hm]
        simp [hds]
    · next hr3 =>
      cases hbt : backtrackSplit (r2.takeWhile isJsWs) with
      | none =>
        rw [hbt] at h
        simp at h
      | some pr =>
        obtain ⟨pre, rest⟩ := pr
        rw [hbt] at h
        injection h with hpair
        injection hpair with hm hr
        simp only [backtrackSplit] at hbt
        split at hbt
        · simp at hbt
        · next x xs hrem =>
          injection hbt with hpair2
          injection hpair2 with hpre hrest
          have hws : r2.takeWhile isJsWs = r2 := by
            have hsp := List.takeWhile_append_dropWhile isJsWs r2
            rw [hr3, List.append_nil] at hsp
            exact hsp
          constructor
          · rw [← hm, ← hr, ← hpre, ← hrest]
            calc l = l.takeWhile isDigitChar ++ l.dropWhile isDigitChar :=
                  (List.takeWhile_append_dropWhile isDigitChar l).symm
              _ = l.takeWhile isDigitChar ++ '.' :: r2 := by rw [hr2]
              _ = l.takeWhile isDigitChar ++ '.' :: r2.takeWhile isJsWs := by rw [hws]
              _ = l.takeWhile isDigitChar ++
                  '.' :: (((r2.takeWhile isJsWs).reverse.dropWhile isLineTerm).reverse ++
                    ((r2.takeWhile isJsWs).reverse.takeWhile isLineTerm).reverse) := by
                  rw [← List.reverse_append,
                    List.takeWhile_append_dropWhile isLineTerm (r2.takeWhile isJsWs).reverse,
                    List.reverse_reverse]
              _ = (l.takeWhile isDigitChar ++
                    '.' :: ((r2.takeWhile isJsWs).reverse.dropWhile isLineTerm).reverse) ++
                  ((r2.takeWhile isJsWs).reverse.takeWhile isLineTerm).reverse := by
                  simp [List.append_assoc]
          · rw [← hm]
            simp [hds]
  · simp at h

theorem matchNumbered_rest_length {l m r : List Char}
    (h : matchNumbered l = some (m, r)) : r.length < l.length := by
  obtain ⟨happ, hne⟩ := matchNumbered_append h
  rw [happ, List.length_append]
  cases m with
  | nil => exact absurd rfl hne
  | cons c m2 => simp

theorem scanMatchesF_nil (fuel : Nat) (b : Bool) : scanMatchesF fuel [] b = [] := by
  cases fuel <;> rfl

theorem scanMatchesF_congr : ∀ (f1 f2 : Nat) (l : List Char) (b : Bool),
    l.length ≤ f1 → l.length ≤ f2 → scanMatchesF f1 l b = scanMatchesF f2 l b := by
  intro f1
  induction f1 with
  | zero =>
    intro f2 l b h1 h2
    have hl : l = [] := List.eq_nil_of_length_eq_zero (by omega)
    subst hl
    rw [scanMatchesF_nil, scanMatchesF_nil]
  | succ f ih =>
    intro f2 l b h1 h2
    cases l with
    | nil => rw [scanMatchesF_nil, scanMatchesF_nil]
    | cons c rest =>
      cases f2 with
      | zero => simp at h2
      | succ f2p =>
        cases b with
        | false =>
          show scanMatchesF f rest (isLineTerm c) = scanMatchesF f2p rest (isLineTerm c)
          exact ih f2p rest _ (by simp at h1; omega) (by simp at h2; omega)
        | true =>
          have e1 : scanMatchesF (f + 1) (c :: rest) true =
              match matchNumbered (c :: rest) with
              | some (m, r) => m :: scanMatchesF f r false
              | none => scanMatchesF f rest (isLineTerm c) := rfl
          have e2 : scanMatchesF (f2p + 1) (c :: rest) true =
              match matchNumbered (c :: rest) with
              | some (m, r) => m :: scanMatchesF f2p r false
              | none => scanMatchesF f2p rest (isLineTerm c) := rfl
          rw [e1, e2]
          cases hm : matchNumbered (c :: rest) with
          | none => exact ih f2p rest _ (by simp at h1; omega) (by simp at h2; omega)
          | some p =>
            obtain ⟨m, r⟩ := p
            have hr := matchNumbered_rest_length hm
            exact congrArg (m :: ·)
              (ih f2p r false (by simp at h1 hr; omega) (by simp at h2 hr; omega))

theorem scanMatchesF_step {l m r : List Char} {fuel : Nat}
    (hm : matchNumbered l = some (m, r)) (hfuel : l.length ≤ fuel) (hl : l ≠ []) :
    scanMatchesF fuel l true = m :: scanMatchesF r.length r false := by
  cases l with
  | nil => exact absurd rfl hl
  | cons c rest =>
    cases fuel with
    | zero => simp at hfuel
    | succ f =>
      have e1 : scanMatchesF (f + 1) (c :: rest) true =
          match matchNumbered (c :: rest) with
          | some (m, r) => m :: scanMatchesF f r false
          | none => scanMatchesF f rest (isLineTerm c) := rfl
      rw [e1, hm]
      have hr := matchNumbered_rest_length hm
      exact congrArg (m :: ·)
        (scanMatchesF_congr f r.length r false (by simp at hfuel hr; omega) (Nat.le_refl _))

theorem scanMatchesF_newline (tail : List Char) (fuel : Nat)
    (hfuel : tail.length + 1 ≤ fuel) :
    scanMatchesF fuel ('\n' :: tail) false = scanMatchesF tail.length tail true := by
  cases fuel with
  | zero => omega
  | succ f =>
    show scanMatchesF f tail (isLineTerm '\n') = _
    have hlt : isLineTerm '\n' = true := by decide
    rw [hlt]
    exact scanMatchesF_congr f tail.length tail true (by omega) (Nat.le_refl _)

theorem toDigitsCore_digits (fuel : Nat) :
    ∀ (n : Nat) (ds : List Char), (∀ c ∈ ds, isDigitChar c = true) →
    ∀ c ∈ Nat.toDigitsCore 10 fuel n ds, isDigitChar c = true := by
  induction fuel with
  | zero => intro n ds hds; exact hds
  | succ f ih =>
    intro n ds hds
    have hd : isDigitChar (Nat.digitChar (n % 10)) = true := by
      have h10 : n % 10 < 10 := Nat.mod_lt _ (by omega)
      generalize hm : n % 10 = m at h10 ⊢
      interval_cases m <;> decide
    intro c hc
    simp only [Nat.toDigitsCore] at hc
    split at hc
    · rcases List.mem_cons.mp hc with rfl | hmem
      · exact hd
      · exact hds c hmem
    · refine ih (n / 10) (Nat.digitChar (n % 10) :: ds) ?_ c hc
      intro c2 hc2
      rcases List.mem_cons.mp hc2 with rfl | hm2
      · exact hd
      · exact hds c2 hm2

theorem toDigitsCore_acc_ne_nil (b fuel : Nat) :
    ∀ (n : Nat) (ds : List Char), ds ≠ [] → Nat.toDigitsCore b fuel n ds ≠ [] := by
  induction fuel with
  | zero => intro n ds hds; exact hds
  | succ f ih =>
    intro n ds hds
    simp only [Nat.toDigitsCore]
    split
    · exact List.cons_ne_nil _ _
    · exact ih _ _ (List.cons_ne_nil _ _)

theorem natChars_ne_nil (k : Nat) : natChars k ≠ [] := by
  show Nat.toDigits 10 k ≠ []
  simp only [Nat.toDigits, Nat.toDigitsCore]
  split
  · exact List.cons_ne_nil _ _
  · exact toDigitsCore_acc_ne_nil 10 _ _ _ (List.cons_ne_nil _ _)

theorem natChars_digits (k : Nat) : ∀ c ∈ natChars k, isDigitChar c = true := by
  show ∀ c ∈ Nat.toDigits 10 k, isDigitChar c = true
  exact toDigitsCore_digits (k + 1) k [] (by intro c hc; cases hc)

theorem goodText_unpack {t : List Char} (ht : goodText t = true) :
    headNotWs t = true ∧ headNotWs t.reverse = true ∧
      ∀ c ∈ t, isLineTerm c = false := by
  simp only [goodText, Bool.and_eq_true, List.all_eq_true] at ht
  obtain ⟨⟨h1, h2⟩, h3⟩ := ht
  refine ⟨h1, h2, fun c hc => ?_⟩
  have := h3 c hc
  cases hlt : isLineTerm c
  · rfl
  · rw [hlt] at this; simp at this

theorem matchNumbered_line (ds t rest : List Char)
    (hne : ds ≠ []) (hdig : ∀ c ∈ ds, isDigitChar c = true)
    (ht : goodText t = true)
    (hrest : rest = [] ∨ ∃ tail, rest = '\n' :: tail) :
    matchNumbered (ds ++ '.' :: ' ' :: (t ++ rest)) = some (ds ++ '.' :: ' ' :: t, rest) := by
  obtain ⟨hh, hrev, hall⟩ := goodText_unpack ht
  cases t with
  | nil => simp [headNotWs] at hh
  | cons c t2 =>
    have hc : isJsWs c = false := by
      simp only [headNotWs, Bool.not_eq_true'] at hh
      exact hh
    have h1 : (ds ++ '.' :: ' ' :: (c :: t2 ++ rest)).takeWhile isDigitChar = ds :=
      takeWhile_append_stop _ ds '.' _ hdig (by decide)
    have h2 : (ds ++ '.' :: ' ' :: (c :: t2 ++ rest)).dropWhile isDigitChar =
        '.' :: ' ' :: (c :: t2 ++ rest) :=
      dropWhile_append_stop _ ds '.' _ hdig (by decide)
    have h3 : (' ' :: c :: (t2 ++ rest)).takeWhile isJsWs = [' '] :=
      takeWhile_append_stop isJsWs [' '] c (t2 ++ rest)
        (by intro x hx; rw [List.mem_singleton.mp hx]; rfl) hc
    have h4 : (' ' :: c :: (t2 ++ rest)).dropWhile isJsWs = c :: (t2 ++ rest) :=
      dropWhile_append_stop isJsWs [' '] c (t2 ++ rest)
        (by intro x hx; rw [List.mem_singleton.mp hx]; rfl) hc
    have h5 : (c :: (t2 ++ rest)).takeWhile (fun x => !isLineTerm x) = c :: t2 := by
      rcases hrest with rfl | ⟨tail, rfl⟩
      · rw [List.append_nil]
        exact takeWhile_all _ _ (fun x hx => by
          simp only [Bool.not_eq_true']
          exact hall x hx)
      · have : c :: (t2 ++ '\n' :: tail) = (c :: t2) ++ '\n' :: tail := by simp
        rw [this]
        exact takeWhile_append_stop _ (c :: t2) '\n' tail
          (fun x hx => by
            simp only [Bool.not_eq_true']
            exact hall x hx) (by decide)
    have h6 : (c :: (t2 ++ rest)).dropWhile (fun x => !isLineTerm x) = rest := by
      rcases hrest with rfl | ⟨tail, rfl⟩
      · rw [List.append_nil]
        exact dropWhile_all _ _ (fun x hx => by
          simp only [Bool.not_eq_true']
          exact hall x hx)
      · have : c :: (t2 ++ '\n' :: tail) = (c :: t2) ++ '\n' :: tail := by simp
        rw [this]
        exact dropWhile_append_stop _ (c :: t2) '\n' tail
          (fun x hx => by
            simp only [Bool.not_eq_true']
            exact hall x hx) (by decide)
    simp only [matchNumbered, h1, h2]
    obtain ⟨d, ds2, rfl⟩ := List.exists_cons_of_ne_nil hne
    simp only [List.cons_append, h3, h4, h5, h6]
    rfl

theorem numberedLines_length (texts : List (List Char)) :
    ∀ k, (numberedLinesChars k texts).length = texts.length := by
  induction texts with
  | nil => intro k; rfl
  | cons t ts ih =>
    intro k
    simp only [numberedLinesChars, List.length_cons, ih (k + 1)]

theorem scan_numberedLines (texts : List (List Char)) :
    ∀ (k fuel : Nat), (∀ t ∈ texts, goodText t = true) →
    (joinNL (numberedLinesChars k texts)).length ≤ fuel →
    scanMatchesF fuel (joinNL (numberedLinesChars k texts)) true =
      numberedLinesChars k texts := by
  induction texts with
  | nil => intro k fuel _ _; exact scanMatchesF_nil fuel true
  | cons t ts ih =>
    intro k fuel hgood hfuel
    have hshape : joinNL (numberedLinesChars k (t :: ts)) =
        natChars k ++ '.' :: ' ' :: (t ++ joinNLAux (numberedLinesChars (k + 1) ts)) := by
      show (natChars k ++ '.' :: ' ' :: t) ++ joinNLAux (numberedLinesChars (k + 1) ts) = _
      simp [List.append_assoc]
    have hrest : joinNLAux (numberedLinesChars (k + 1) ts) = [] ∨
        ∃ tail, joinNLAux (numberedLinesChars (k + 1) ts) = '\n' :: tail := by
      cases ts with
      | nil => exact Or.inl rfl
      | cons t2 ts2 =>
        exact Or.inr ⟨_, rfl⟩
    have hline := matchNumbered_line (natChars k) t
      (joinNLAux (numberedLinesChars (k + 1) ts)) (natChars_ne_nil k)
      (natChars_digits k) (hgood t (by simp)) hrest
    have hne : natChars k ++ '.' :: ' ' :: (t ++ joinNLAux (numberedLinesChars (k + 1) ts)) ≠ [] := by
      intro hcontra
      exact natChars_ne_nil k (List.append_eq_nil.mp hcontra).1
    rw [hshape] at hfuel ⊢
    rw [scanMatchesF_step hline hfuel hne]
    show (natChars k ++ '.' :: ' ' :: t) :: _ = numberedLinesChars k (t :: ts)
    cases ts with
    | nil =>
      show _ :: scanMatchesF _ ([] : List Char) false = _
      rw [scanMatchesF_nil]
      rfl
    | cons t2 ts2 =>
      show _ :: scanMatchesF
          ('\n' :: joinNL (numberedLinesChars (k + 1) (t2 :: ts2))).length
          ('\n' :: joinNL (numberedLinesChars (k + 1) (t2 :: ts2))) false = _
      rw [scanMatchesF_newline _ _ (by simp)]
      rw [ih (k + 1) _ (fun x hx => hgood x (by simp [hx])) (Nat.le_refl _)]
      rfl

theorem dropWhile_ws_head (t : List Char) (ht : headNotWs t = true) :
    t.dropWhile isJsWs = t := by
  cases t with
  | nil => rfl
  | cons c t2 =>
    simp only [headNotWs, Bool.not_eq_true'] at ht
    exact dropWhile_head_false isJsWs c t2 ht

theorem trimChars_good (t : List Char) (h1 : headNotWs t = true)
    (h2 : headNotWs t.reverse = true) : trimChars t = t := by
  unfold trimChars
  rw [dropWhile_ws_head t h1, dropWhile_ws_head t.reverse h2, List.reverse_reverse]

theorem stripNumbering_line (ds t : List Char) (hne : ds ≠ [])
    (hdig : ∀ c ∈ ds, isDigitChar c = true) (hhead : headNotWs t = true) :
    stripNumbering (ds ++ '.' :: ' ' :: t) = t := by
  have h1 : (ds ++ '.' :: ' ' :: t).takeWhile isDigitChar = ds :=
    takeWhile_append_stop _ ds '.' _ hdig (by decide)
  have h2 : (ds ++ '.' :: ' ' :: t).dropWhile isDigitChar = '.' :: ' ' :: t :=
    dropWhile_append_stop _ ds '.' _ hdig (by decide)
  simp only [stripNumbering, h1, h2]
  obtain ⟨d, ds2, rfl⟩ := List.exists_cons_of_ne_nil hne
  show (' ' :: t).dropWhile isJsWs = t
  have h3 : (' ' :: t).dropWhile isJsWs = t.dropWhile isJsWs := by
    rw [List.dropWhile_cons]
    simp [show isJsWs ' ' = true from rfl]
  rw [h3, dropWhile_ws_head t hhead]

theorem map_strip_numberedLines (texts : List (List Char)) :
    ∀ k, (∀ t ∈ texts, goodText t = true) →
    (numberedLinesChars k texts).map (fun m => trimChars (stripNumbering m)) = texts := by
  induction texts with
  | nil => intro k _; rfl
  | cons t ts ih =>
    intro k hg
    obtain ⟨hh, hrev, -⟩ := goodText_unpack (hg t (by simp))
    simp only [numberedLinesChars, List.map_cons]
    rw [stripNumbering_line _ _ (natChars_ne_nil k) (natChars_digits k) hh,
      trimChars_good t hh hrev, ih (k + 1) (fun x hx => hg x (by simp [hx]))]

/-- Claim C6 is false as stated for degenerate texts: strategy 1 trims each
captured text, so `"1. a "` parses to `["a"]` (trailing space lost),
`"1.  a"` parses to `["a"]` (leading space lost), and an empty text makes
the regex absorb the following line (`"1. \n2. b"` has a single match), so
the result is not the texts verbatim. -/
theorem claim_C6_counterexample :
    parseTranslationResponse "1. a " 1 = ["a"] ∧ (["a"] : List String) ≠ ["a "] ∧
    parseTranslationResponse "1.  a" 1 = ["a"] ∧ (["a"] : List String) ≠ [" a"] ∧
    parseTranslationResponse "1. \n2. b" 2 = ["2. b", errorMarker] ∧
    (["2. b", errorMarker] : List String) ≠ ["", "b"] := by
  decide

/-- Claim C6 (amended): when the raw model output is exactly `n` lines of
the form `"k. text"` numbered `1..n` in order, where each `text` is
nonempty, contains no line terminator, and neither starts nor ends with
whitespace, the parser returns exactly the texts `[text_1 .. text_n]`
verbatim: the leading numerals are stripped and the texts unchanged. -/
theorem claim_C6 (texts : List String) (h : ∀ t ∈ texts, goodText t.data = true) :
    parseTranslationResponse
      (List.asString (joinNL (numberedLinesChars 1 (texts.map String.data))))
      texts.length = texts := by
  cases texts with
  | nil => decide
  | cons t0 ts0 =>
    have hgood : ∀ t ∈ (t0 :: ts0).map String.data, goodText t = true := by
      intro t ht
      obtain ⟨s, hs, rfl⟩ := List.mem_map.mp ht
      exact h s hs
    have hscan : scanMatches (joinNL (numberedLinesChars 1 ((t0 :: ts0).map String.data))) =
        numberedLinesChars 1 ((t0 :: ts0).map String.data) := by
      unfold scanMatches
      exact scan_numberedLines _ 1 _ hgood (Nat.le_refl _)
    have hlen : (numberedLinesChars 1 ((t0 :: ts0).map String.data)).length =
        (t0 :: ts0).length := by
      rw [numberedLines_length, List.length_map]
    have hnn : numberedLinesChars 1 ((t0 :: ts0).map String.data) ≠ [] := by
      simp [numberedLinesChars]
    unfold parseTranslationResponse
    rw [data_asString]
    rw [parseChars_strategy1 _ _ ⟨by rw [hscan]; exact hnn, by rw [hscan, hlen]⟩]
    rw [hscan, map_strip_numberedLines _ 1 hgood, List.map_map]
    have : (List.asString ∘ String.data) = id := by
      funext s
      exact asString_data s
    rw [this, List.map_id]

/-- Witness for claim C6 at the concrete two-line numbered response
`"1. Bonjour\n2. Le monde"`. -/
theorem claim_C6_witness :
    parseTranslationResponse
      (List.asString (joinNL (numberedLinesChars 1
        (["Bonjour", "Le monde"].map String.data)))) 2 = ["Bonjour", "Le monde"] := by
  exact claim_C6 ["Bonjour", "Le monde"] (by decide)
